import Mathlib

/-!
# Verification of the ct_hammer driver (trillian/integration/ct_hammer/main.go)

Shallow embedding of the ct_hammer stress-test driver. Time instants are
modelled as `Int` nanoseconds since the Unix epoch (the value of Go
`time.Time.UnixNano()`); durations are `Int` nanoseconds. Protobuf
timestamps are (seconds, nanos) pairs, and `ptypes.Timestamp` validation is
modelled after its documented range checks. Fallible operations return
`Except String _`, with `glog.Exitf` modelled as stopping with the error.
-/

/-- One nanosecond-count hour, as in Go `time.Hour`. -/
def hourNanos : Int := 3600 * 1000000000

/-- 24 hours in nanoseconds, as in Go `24 * time.Hour`. -/
def dayNanos : Int := 24 * hourNanos

/-- `UnixNano` of the Go zero `time.Time` (0001-01-01T00:00:00Z):
-62135596800 seconds before the Unix epoch. -/
def goZeroTimeUnixNanos : Int := -62135596800 * 1000000000

/-- Go `time.Time.IsZero` on the UnixNano representation: true exactly on
the instant 0001-01-01T00:00:00Z. -/
def timeIsZero (t : Int) : Bool := t = goZeroTimeUnixNanos

/-- A `google.protobuf.Timestamp` message: seconds and nanos fields. -/
structure ProtoTimestamp where
  seconds : Int
  nanos : Int
deriving DecidableEq

/-- Go `ptypes.Timestamp`: validates that the timestamp lies in
[0001-01-01, 10000-01-01) with nanos in [0, 1e9), and converts it to a
`time.Time`, here represented by its `UnixNano` value. -/
def ptypesTimestamp (ts : ProtoTimestamp) : Except String Int :=
  if ts.seconds < -62135596800 then
    .error "timestamp before 0001-01-01"
  else if ts.seconds ≥ 253402300800 then
    .error "timestamp after 10000-01-01"
  else if ts.nanos < 0 ∨ ts.nanos ≥ 1000000000 then
    .error "timestamp has out-of-range nanos"
  else
    .ok (ts.seconds * 1000000000 + ts.nanos)

/-- Wrapping of an ideal integer into Go `int64`: the representative of
its class modulo 2^64 lying in [-2^63, 2^63). `time.Time.UnixNano` and
int64 addition and subtraction wrap this way; times outside roughly
1678-2262 have UnixNano values that wrap. -/
def wrap64 (n : Int) : Int :=
  (n + 9223372036854775808) % 18446744073709551616 - 9223372036854775808

/-- A `configpb.LogConfig` entry, restricted to the fields the driver
reads: the prefix (named `pfx` here), the optional temporal-shard bounds,
and the optional expected merge delay in seconds. -/
structure LogConfig where
  pfx : String
  notAfterStart : Option ProtoTimestamp
  notAfterLimit : Option ProtoTimestamp
  expectedMergeDelaySec : Int
deriving DecidableEq

/-- `notAfterForLog` from main.go: the notAfter time for certs submitted to
a log, from its temporal-shard bounds. `now` is the value of
`time.Now()` at the call, as UnixNano. The single-bound branches use
`time.Time.Add`, which is exact over the whole ptypes-valid range, but the
midpoint branch computes
`(limit.UnixNano() - start.UnixNano())/2 + start.UnixNano()` in int64:
each `UnixNano`, the subtraction and the final addition wrap (`wrap64`),
and the division truncates toward zero (`Int.tdiv`, exact in int64);
`time.Unix(0, n)` then denotes exactly the instant with UnixNano `n`. -/
def notAfterForLog (c : LogConfig) (now : Int) : Except String Int :=
  match c.notAfterStart, c.notAfterLimit with
  | none, none => .ok (now + dayNanos)
  | some tsS, none =>
    match ptypesTimestamp tsS with
    | .error e => .error ("failed to parse NotAfterStart: " ++ e)
    | .ok start => .ok (start + dayNanos)
  | some tsS, some tsL =>
    match ptypesTimestamp tsS with
    | .error e => .error ("failed to parse NotAfterStart: " ++ e)
    | .ok start =>
      match ptypesTimestamp tsL with
      | .error e => .error ("failed to parse NotAfterLimit: " ++ e)
      | .ok lim =>
        .ok (wrap64 (Int.tdiv (wrap64 (wrap64 lim - wrap64 start)) 2 + wrap64 start))
  | none, some tsL =>
    match ptypesTimestamp tsL with
    | .error e => .error ("failed to parse NotAfterLimit: " ++ e)
    | .ok lim => .ok (lim - hourNanos)

/-- The eight `ctfe.EntrypointName` constants used by the driver. -/
inductive EntrypointName where
  | AddChainName
  | AddPreChainName
  | GetSTHName
  | GetSTHConsistencyName
  | GetProofByHashName
  | GetEntriesName
  | GetRootsName
  | GetEntryAndProofName
deriving DecidableEq, BEq

open EntrypointName

/-- The eight entrypoints, in the order of the map literals in main.go. -/
def allEntrypoints : List EntrypointName :=
  [AddChainName, AddPreChainName, GetSTHName, GetSTHConsistencyName,
   GetProofByHashName, GetEntriesName, GetRootsName, GetEntryAndProofName]

/-- The `Bias` map literal from main.go (lines 125-134): one weight per
entrypoint, from the eight bias flags. Modelled as an association list so
that key presence is observable. -/
def biasWeights (addChain addPre gSTH gCons gProof gEntries gRoots gEAP : Int) :
    List (EntrypointName × Int) :=
  [(AddChainName, addChain), (AddPreChainName, addPre), (GetSTHName, gSTH),
   (GetSTHConsistencyName, gCons), (GetProofByHashName, gProof),
   (GetEntriesName, gEntries), (GetRootsName, gRoots), (GetEntryAndProofName, gEAP)]

/-- The `InvalidChance` map literal from main.go (lines 135-144): the
global invalid-chance flag for add-chain, add-pre-chain,
get-sth-consistency, get-proof-by-hash and get-entries; the literal 0 for
get-sth, get-roots and get-entry-and-proof. -/
def invalidChanceMap (ic : Int) : List (EntrypointName × Int) :=
  [(AddChainName, ic), (AddPreChainName, ic), (GetSTHName, 0),
   (GetSTHConsistencyName, ic), (GetProofByHashName, ic),
   (GetEntriesName, ic), (GetRootsName, 0), (GetEntryAndProofName, 0)]

/-- `integration.HammerBias`: the two per-entrypoint tables. -/
structure HammerBias where
  bias : List (EntrypointName × Int)
  invalidChance : List (EntrypointName × Int)
deriving DecidableEq

/-- Construction of the `integration.HammerBias` value in main.go:
when the testdata directory flag is empty, main.go first zeroes the
add-chain and add-pre-chain bias flags (lines 110-114), then builds both
map literals (lines 124-145). -/
def mkBias (testDirEmpty : Bool) (addChain addPre gSTH gCons gProof gEntries gRoots gEAP ic : Int) :
    HammerBias :=
  let ab := if testDirEmpty then 0 else addChain
  let pb := if testDirEmpty then 0 else addPre
  { bias := biasWeights ab pb gSTH gCons gProof gEntries gRoots gEAP,
    invalidChance := invalidChanceMap ic }

/-- Sum of the weights of a bias table. -/
def totalWeight (b : HammerBias) : Int := (b.bias.map Prod.snd).sum

/-- `newLimiter` from main.go: nil (none) for a non-positive rate,
otherwise a limiter carrying that requests-per-second rate. -/
def newLimiter (rate : Int) : Option Int :=
  if rate ≤ 0 then none else some rate

/-- The driver flags feeding worker construction (main.go lines 45-73),
with the leaf-not-after override already parsed: `override` is the
UnixNano of the parsed `-leaf_not_after` value, and equals
`goZeroTimeUnixNanos` when the flag is empty (the Go zero `time.Time`). -/
structure MainOpts where
  override : Int
  mmdFlag : Int
  bias : HammerBias
  minGetEntries : Int
  maxGetEntries : Int
  oversizedGetEntries : Bool
  operations : Nat
  rateLimit : Int
  maxParallelChains : Int
  ignoreErrors : Bool
  maxRetryDuration : Int
deriving DecidableEq

/-- `integration.HammerConfig` as assembled in main.go (lines 208-223);
the chain generator is represented by the notAfter instant it stamps. -/
structure HammerConfig where
  logCfg : LogConfig
  mmd : Int
  notAfter : Int
  epBias : HammerBias
  minGetEntries : Int
  maxGetEntries : Int
  oversizedGetEntries : Bool
  operations : Nat
  limiter : Option Int
  maxParallelChains : Int
  ignoreErrors : Bool
  maxRetryDuration : Int
deriving DecidableEq

/-- Per-log notAfter selection (main.go lines 196-202): the override is
used unless it is the zero time, in which case `notAfterForLog` is
consulted. -/
def notAfterForRun (override : Int) (c : LogConfig) (now : Int) : Except String Int :=
  if timeIsZero override then notAfterForLog c now else .ok override

/-- The effective MMD for one log (main.go lines 189-194): the expected
merge delay in seconds converted to nanoseconds when nonzero, else the
global mmd flag. -/
def effectiveMMD (mmdFlag : Int) (c : LogConfig) : Int :=
  if c.expectedMergeDelaySec ≠ 0 then 1000000000 * c.expectedMergeDelaySec else mmdFlag

/-- One worker configuration as assembled for log `c` with resolved
notAfter `na` (main.go lines 208-223). -/
def mkWorker (o : MainOpts) (c : LogConfig) (na : Int) : HammerConfig :=
  { logCfg := c,
    mmd := effectiveMMD o.mmdFlag c,
    notAfter := na,
    epBias := o.bias,
    minGetEntries := o.minGetEntries,
    maxGetEntries := o.maxGetEntries,
    oversizedGetEntries := o.oversizedGetEntries,
    operations := o.operations,
    limiter := newLimiter o.rateLimit,
    maxParallelChains := o.maxParallelChains,
    ignoreErrors := o.ignoreErrors,
    maxRetryDuration := o.maxRetryDuration }

/-- The launch loop of main.go (lines 182-229): for each configured log in
order, resolve its notAfter and start its worker goroutine. A resolution
failure calls `glog.Exitf`, which terminates the process: the loop stops,
returning the workers already launched and the exit message. On success
every log gets a worker and there is no exit message. Pool and chain
generator construction are external calls whose failures are unrelated to
the configuration fields modelled here. -/
def launchWorkers (o : MainOpts) (now : Int) : List LogConfig → List HammerConfig × Option String
  | [] => ([], none)
  | c :: rest =>
    match notAfterForRun o.override c now with
    | .error e =>
      ([], some ("Failed to determine notAfter for " ++ c.pfx ++ ": " ++ e))
    | .ok na =>
      (mkWorker o c na :: (launchWorkers o now rest).1, (launchWorkers o now rest).2)

/-- One worker outcome sent on the results channel (main.go lines
176-179): the log prefix and the error, if any, from `HammerCTLog`. -/
structure CampaignResult where
  pfx : String
  err : Option String
deriving DecidableEq

/-- The aggregation loop of main.go (lines 234-240): counts the results
that carry an error and logs each failing prefix (in channel order);
returns the error count and the list of reported failing prefixes. -/
def processResults : List CampaignResult → Nat × List String
  | [] => (0, [])
  | r :: rest =>
    match r.err with
    | some _ => ((processResults rest).1 + 1, r.pfx :: (processResults rest).2)
    | none => processResults rest

/-- Exit verdict of main.go (lines 241-244): `glog.Exitf` (failure exit)
exactly when the error count is nonzero. -/
def exitFailure (rs : List CampaignResult) : Bool :=
  (processResults rs).1 ≠ 0

/-- Seed fixing in main.go (lines 87-91): a seed flag of -1 is replaced by
the low 32 bits of the current wall-clock UnixNano (the nondeterministic
input); any other seed value is used as-is. -/
def effectiveSeed (seedFlag : Int) (nowNanos : Nat) : Int :=
  if seedFlag = -1 then Int.ofNat (nowNanos &&& 0xFFFFFFFF) else seedFlag

/-- Modelled from the spec: the seeded PRNG driving the draws. The worker
library (`integration.HammerCTLog` and `HammerBias.Choose`) is not under
src/; the spec only requires the draw stream to be a deterministic
function of the seed, modelled here as a 64-bit linear congruential step. -/
def prngNext (s : Int) : Int :=
  (6364136223846793005 * s + 1442695040888963407) % (2 ^ 64)

/-- Modelled from the spec: weighted selection of an operation kind, with
selection frequency weight / sum-of-weights: walk the table subtracting
weights from the random value until it falls inside an entry. -/
def chooseWeighted : List (EntrypointName × Int) → Int → EntrypointName
  | [], _ => EntrypointName.GetSTHName
  | (k, w) :: rest, r => if r < w then k else chooseWeighted rest (r - w)

/-- Modelled from the spec: one round of the worker loop: draw an
operation kind from the weighted distribution, then mark it invalid with
probability 1-in-N for that kind (N = 0 disables); returns the draw and
the advanced PRNG state. -/
def drawRound (b : HammerBias) (s : Int) : (EntrypointName × Bool) × Int :=
  let s1 := prngNext s
  let kind := chooseWeighted b.bias (s1 % max (totalWeight b) 1)
  let s2 := prngNext s1
  let n := (b.invalidChance.lookup kind).getD 0
  let invalid : Bool := if n ≤ 0 then false else decide (s2 % n = 0)
  ((kind, invalid), s2)

/-- Modelled from the spec: the sequence of (kind, invalid) draws a worker
makes over `n` rounds, starting from the given PRNG state. -/
def drawSequence (b : HammerBias) (s : Int) : Nat → List (EntrypointName × Bool)
  | 0 => []
  | n + 1 =>
    let (d, s2) := drawRound b s
    d :: drawSequence b s2 n

/-- The flag-default options: override absent (zero time), mmd 2 minutes,
default biases with a testdata directory available, rate limit 0,
operations 2^64 - 1, get-entries sizes 1..500, 2 parallel chains. -/
def defaultOpts : MainOpts :=
  { override := goZeroTimeUnixNanos,
    mmdFlag := 120 * 1000000000,
    bias := mkBias false 20 20 2 2 2 2 1 0 10,
    minGetEntries := 1,
    maxGetEntries := 500,
    oversizedGetEntries := false,
    operations := 18446744073709551615,
    rateLimit := 0,
    maxParallelChains := 2,
    ignoreErrors := false,
    maxRetryDuration := 60 * 1000000000 }

/-- Options identical to the defaults except that every bias weight is
zero. -/
def zeroBiasOpts : MainOpts :=
  { defaultOpts with bias := mkBias false 0 0 0 0 0 0 0 0 10 }

/-- A log with no shard bounds. -/
def cNone : LogConfig := ⟨"nn", none, none, 0⟩

/-- A log with only NotAfterStart, at Unix second 100. -/
def cStart : LogConfig := ⟨"sn", some ⟨100, 0⟩, none, 0⟩

/-- A log with NotAfterStart at the Unix epoch and NotAfterLimit 10 hours
later. -/
def cBoth : LogConfig := ⟨"sl", some ⟨0, 0⟩, some ⟨36000, 0⟩, 0⟩

/-- A log with only NotAfterLimit, one hour after the Unix epoch. -/
def cLimit : LogConfig := ⟨"nl", none, some ⟨3600, 0⟩, 0⟩

/-- A log whose NotAfterStart is malformed: its nanos field is 1e9, which
`ptypes.Timestamp` rejects. -/
def cBad : LogConfig := ⟨"bad", some ⟨0, 1000000000⟩, some ⟨36000, 0⟩, 0⟩

/-- A log whose two shard bounds are both Unix second 200000000000 (year
~8307): accepted by `ptypes.Timestamp` but far outside the int64 UnixNano
range. -/
def cBig : LogConfig :=
  ⟨"big", some ⟨200000000000, 0⟩, some ⟨200000000000, 0⟩, 0⟩

deriving instance DecidableEq for Except


/-- `wrap64` is the identity on int64-representable values. -/
theorem wrap64_eq (x : Int) (h1 : -9223372036854775808 ≤ x)
    (h2 : x < 9223372036854775808) : wrap64 x = x := by
  unfold wrap64
  omega

/-- Truncating division by 2 stays between 0 and its argument. -/
theorem tdiv_two_between (d : Int) :
    (0 ≤ d → 0 ≤ Int.tdiv d 2 ∧ Int.tdiv d 2 ≤ d) ∧
    (d < 0 → d ≤ Int.tdiv d 2 ∧ Int.tdiv d 2 ≤ 0) := by
  constructor
  · intro h
    rw [Int.tdiv_eq_ediv h (by decide)]
    omega
  · intro h
    have h2 : Int.tdiv d 2 = -(Int.tdiv (-d) 2) := by
      rw [Int.neg_tdiv, Int.neg_neg]
    rw [h2, Int.tdiv_eq_ediv (by omega) (by decide)]
    omega

/-- C1 counterexample: a log whose two bounds are both Unix second
200000000000 (ptypes-valid, year ~8307). The ideal midpoint is that bound
itself, 2e20 ns, but the program computes the midpoint over wrapping int64
UnixNano values and returns -2914184810805067776 ns (year ~1878). -/
theorem midpoint_wraps_at_large_bounds :
    ptypesTimestamp ⟨200000000000, 0⟩ = .ok 200000000000000000000 ∧
    notAfterForLog cBig 0 = .ok (-2914184810805067776) ∧
    notAfterForLog cBig 0 ≠
      .ok (200000000000000000000 +
        Int.tdiv (200000000000000000000 - 200000000000000000000) 2) := by
  decide

/-- C1 amended: `notAfterForLog` returns now + 24h when neither bound is
set; start + 24h when only NotAfterStart is set; limit - 1h when only
NotAfterLimit is set; and when both are set, the midpoint computed over
wrapping int64 UnixNano arithmetic, which coincides with the ideal
midpoint start + (limit - start)/2 whenever start, limit and their
difference are int64-representable in nanoseconds (roughly years
1678-2262). -/
theorem notAfterForLog_cases (c : LogConfig) (now : Int) :
    (c.notAfterStart = none → c.notAfterLimit = none →
      notAfterForLog c now = .ok (now + dayNanos)) ∧
    (∀ tsS s, c.notAfterStart = some tsS → ptypesTimestamp tsS = .ok s →
      c.notAfterLimit = none → notAfterForLog c now = .ok (s + dayNanos)) ∧
    (∀ tsS tsL s l, c.notAfterStart = some tsS → c.notAfterLimit = some tsL →
      ptypesTimestamp tsS = .ok s → ptypesTimestamp tsL = .ok l →
      notAfterForLog c now =
        .ok (wrap64 (Int.tdiv (wrap64 (wrap64 l - wrap64 s)) 2 + wrap64 s)) ∧
      (-9223372036854775808 ≤ s → s < 9223372036854775808 →
       -9223372036854775808 ≤ l → l < 9223372036854775808 →
       -9223372036854775808 ≤ l - s → l - s < 9223372036854775808 →
       notAfterForLog c now = .ok (s + Int.tdiv (l - s) 2))) ∧
    (∀ tsL l, c.notAfterStart = none → c.notAfterLimit = some tsL →
      ptypesTimestamp tsL = .ok l →
      notAfterForLog c now = .ok (l - hourNanos)) := by
  refine ⟨fun h1 h2 => ?_, fun tsS s h1 hp h2 => ?_, fun tsS tsL s l h1 h2 hps hpl => ?_,
    fun tsL l h1 h2 hp => ?_⟩
  · simp [notAfterForLog, h1, h2]
  · simp [notAfterForLog, h1, h2, hp]
  · refine ⟨by simp [notAfterForLog, h1, h2, hps, hpl], ?_⟩
    intro hs1 hs2 hl1 hl2 hd1 hd2
    have e1 : wrap64 s = s := wrap64_eq s hs1 hs2
    have e2 : wrap64 l = l := wrap64_eq l hl1 hl2
    have e3 : wrap64 (l - s) = l - s := wrap64_eq _ hd1 hd2
    have hb := tdiv_two_between (l - s)
    have e4 : wrap64 (Int.tdiv (l - s) 2 + s) = Int.tdiv (l - s) 2 + s := by
      rcases le_or_lt 0 (l - s) with h | h
      · obtain ⟨h5, h6⟩ := hb.1 h
        exact wrap64_eq _ (by omega) (by omega)
      · obtain ⟨h5, h6⟩ := hb.2 h
        exact wrap64_eq _ (by omega) (by omega)
    simp only [notAfterForLog, h1, h2, hps, hpl, e1, e2, e3]
    rw [e4, Int.add_comm]
  · simp [notAfterForLog, h1, h2, hp]

/-- Witness for the amended C1: the four cases at concrete in-range
configurations, including the spec example start = epoch,
limit = epoch + 10h, midpoint epoch + 5h. -/
theorem notAfterForLog_cases_witness :
    notAfterForLog cNone 5 = .ok (5 + dayNanos) ∧
    notAfterForLog cStart 0 = .ok (100000000000 + dayNanos) ∧
    notAfterForLog cBoth 0 = .ok (0 + Int.tdiv (36000000000000 - 0) 2) ∧
    notAfterForLog cLimit 0 = .ok (3600000000000 - hourNanos) :=
  ⟨(notAfterForLog_cases cNone 5).1 rfl rfl,
   (notAfterForLog_cases cStart 0).2.1 ⟨100, 0⟩ 100000000000 rfl rfl rfl,
   ((notAfterForLog_cases cBoth 0).2.2.1 ⟨0, 0⟩ ⟨36000, 0⟩ 0 36000000000000
       rfl rfl rfl rfl).2
     (by decide) (by decide) (by decide) (by decide) (by decide) (by decide),
   (notAfterForLog_cases cLimit 0).2.2.2 ⟨3600, 0⟩ 3600000000000 rfl rfl rfl⟩

/-- C4: in the constructed invalid-chance table, get-sth, get-roots and
get-entry-and-proof map to 0 regardless of the global flag, while the
other five kinds map to the global invalid-chance value. -/
theorem invalidChance_values (ic : Int) :
    (invalidChanceMap ic).lookup EntrypointName.GetSTHName = some 0 ∧
    (invalidChanceMap ic).lookup EntrypointName.GetRootsName = some 0 ∧
    (invalidChanceMap ic).lookup EntrypointName.GetEntryAndProofName = some 0 ∧
    (invalidChanceMap ic).lookup EntrypointName.AddChainName = some ic ∧
    (invalidChanceMap ic).lookup EntrypointName.AddPreChainName = some ic ∧
    (invalidChanceMap ic).lookup EntrypointName.GetSTHConsistencyName = some ic ∧
    (invalidChanceMap ic).lookup EntrypointName.GetProofByHashName = some ic ∧
    (invalidChanceMap ic).lookup EntrypointName.GetEntriesName = some ic :=
  ⟨rfl, rfl, rfl, rfl, rfl, rfl, rfl, rfl⟩

/-- C7: for any flag settings, both bias tables contain exactly the eight
entrypoints as keys, and when no testdata directory is available the
add-chain and add-pre-chain weights are present with value 0. -/
theorem bias_table_keys (tde : Bool) (a p s cns ph e r eap ic : Int) :
    ((mkBias tde a p s cns ph e r eap ic).bias.map Prod.fst = allEntrypoints) ∧
    ((mkBias tde a p s cns ph e r eap ic).invalidChance.map Prod.fst = allEntrypoints) ∧
    (tde = true →
      (mkBias tde a p s cns ph e r eap ic).bias.lookup EntrypointName.AddChainName = some 0 ∧
      (mkBias tde a p s cns ph e r eap ic).bias.lookup EntrypointName.AddPreChainName = some 0) := by
  refine ⟨rfl, rfl, fun h => ?_⟩
  subst h
  exact ⟨rfl, rfl⟩

/-- Witness for C7: with the testdata directory absent and the default
flag values, add-chain and add-pre-chain are present with weight 0. -/
theorem bias_table_keys_witness :
    (mkBias true 20 20 2 2 2 2 1 0 10).bias.lookup EntrypointName.AddChainName = some 0 ∧
    (mkBias true 20 20 2 2 2 2 1 0 10).bias.lookup EntrypointName.AddPreChainName = some 0 :=
  (bias_table_keys true 20 20 2 2 2 2 1 0 10).2.2 rfl

/-- C8: `newLimiter` returns none at rate 0 (limiting disabled), returns a
limiter carrying the rate for any positive rate, and the worker
configuration attaches exactly `newLimiter` of the rate-limit flag. -/
theorem rate_limit_attach (r : Int) (o : MainOpts) (c : LogConfig) (na : Int) :
    newLimiter 0 = none ∧
    (0 < r → newLimiter r = some r) ∧
    (mkWorker o c na).limiter = newLimiter o.rateLimit := by
  refine ⟨rfl, fun h => ?_, rfl⟩
  simp only [newLimiter, if_neg (by omega : ¬ r ≤ 0)]

/-- Witness for C8: rate 7 is positive and yields a limiter with cap 7. -/
theorem rate_limit_attach_witness :
    (0 : Int) < 7 ∧ newLimiter 7 = some 7 :=
  ⟨by decide, (rate_limit_attach 7 defaultOpts cNone 0).2.1 (by decide)⟩

/-- C2: the process verdict is success (no failure exit) if and only if
every worker result carries no error, and the reported failing prefixes
are exactly the prefixes of the failing results, in order (enumerable, not
just a count). -/
theorem verdict_iff_no_errors (rs : List CampaignResult) :
    (exitFailure rs = false ↔ ∀ r ∈ rs, r.err = none) ∧
    (processResults rs).2 = (rs.filter (fun r => r.err.isSome)).map (fun r => r.pfx) := by
  induction rs with
  | nil => simp [exitFailure, processResults]
  | cons r rest ih =>
    cases hre : r.err with
    | none =>
      refine ⟨?_, ?_⟩
      · rw [show exitFailure (r :: rest) = exitFailure rest from by
          simp [exitFailure, processResults, hre]]
        rw [ih.1]
        simp [hre]
      · simp [processResults, hre, ih.2]
    | some e =>
      refine ⟨?_, ?_⟩
      · simp [exitFailure, processResults, hre]
      · simp [processResults, hre, ih.2]

/-- C5 counterexample: the override string "0001-01-01T00:00:00Z" parses
to the Go zero time, whose UnixNano is `goZeroTimeUnixNanos`; for a log
with both shard bounds the driver then consults `notAfterForLog` rather
than using the supplied override verbatim. -/
theorem override_supplied_not_verbatim :
    timeIsZero goZeroTimeUnixNanos = true ∧
    notAfterForRun goZeroTimeUnixNanos cBoth 0 = notAfterForLog cBoth 0 ∧
    notAfterForRun goZeroTimeUnixNanos cBoth 0 ≠ Except.ok goZeroTimeUnixNanos := by
  decide

/-- C5 amended: a supplied override that parses to any instant other than
the zero time is used verbatim for every log, and `notAfterForLog` is not
consulted; an override equal to the zero time is treated as absent. -/
theorem override_nonzero_verbatim (o : Int) (c : LogConfig) (now : Int)
    (h : timeIsZero o = false) : notAfterForRun o c now = .ok o := by
  simp [notAfterForRun, h]

/-- Witness for the amended C5: the Unix epoch is not the zero time and is
used verbatim for a sharded log. -/
theorem override_nonzero_verbatim_witness :
    timeIsZero 0 = false ∧ notAfterForRun 0 cBoth 7 = .ok 0 :=
  ⟨by decide, override_nonzero_verbatim 0 cBoth 7 (by decide)⟩

/-- C10: an override that parses to the zero time instant is treated as
absent: for every log the per-log calculator `notAfterForLog` is consulted
instead, because presence is tested with `IsZero`. -/
theorem override_zero_consults (o : Int) (c : LogConfig) (now : Int)
    (h : timeIsZero o = true) : notAfterForRun o c now = notAfterForLog c now := by
  simp [notAfterForRun, h]

/-- Witness for C10: at the zero-time override the calculator result is
used for a limit-only sharded log. -/
theorem override_zero_consults_witness :
    timeIsZero goZeroTimeUnixNanos = true ∧
    notAfterForRun goZeroTimeUnixNanos cLimit 3 = notAfterForLog cLimit 3 :=
  ⟨by decide, override_zero_consults goZeroTimeUnixNanos cLimit 3 (by decide)⟩

/-- C9: with a fixed seed (not -1) and identical configuration, two runs
produce identical sequences of drawn operation kinds and invalid flags,
whatever the wall-clock instants of the two runs. -/
theorem draw_sequence_deterministic (b : HammerBias) (seedFlag : Int) (n now1 now2 : Nat)
    (h : ¬ seedFlag = -1) :
    drawSequence b (effectiveSeed seedFlag now1) n =
      drawSequence b (effectiveSeed seedFlag now2) n := by
  simp [effectiveSeed, h]

/-- Witness for C9: seed 42 at two different wall-clock instants yields
the same 5-round draw sequence under the default bias table. -/
theorem draw_sequence_deterministic_witness :
    ¬ (42 : Int) = -1 ∧
    drawSequence (mkBias false 20 20 2 2 2 2 1 0 10) (effectiveSeed 42 0) 5 =
      drawSequence (mkBias false 20 20 2 2 2 2 1 0 10) (effectiveSeed 42 999) 5 :=
  ⟨by decide, draw_sequence_deterministic (mkBias false 20 20 2 2 2 2 1 0 10) 42 5 0 999 (by decide)⟩

/-- C3 counterexample: with every bias weight zero the driver reports no
configuration error and still launches a worker: the all-zero table is not
treated as fatal and workers do start. -/
theorem zero_bias_not_fatal :
    totalWeight zeroBiasOpts.bias = 0 ∧
    (launchWorkers zeroBiasOpts 0 [cNone]).2 = none ∧
    (launchWorkers zeroBiasOpts 0 [cNone]).1.length = 1 := by
  decide

/-- C3 amended: the driver performs no validation of the bias weights
before launching workers: the launch outcome (exit error and number of
workers started) is independent of the bias table, which is passed through
to each worker unchanged — in particular an all-zero table is not rejected
and workers start regardless. -/
theorem launch_ignores_bias (o : MainOpts) (b b2 : HammerBias) (now : Int)
    (cfgs : List LogConfig) :
    (launchWorkers { o with bias := b } now cfgs).2 =
      (launchWorkers { o with bias := b2 } now cfgs).2 ∧
    (launchWorkers { o with bias := b } now cfgs).1.length =
      (launchWorkers { o with bias := b2 } now cfgs).1.length ∧
    (∀ w ∈ (launchWorkers { o with bias := b } now cfgs).1, w.epBias = b) := by
  induction cfgs with
  | nil => simp [launchWorkers]
  | cons c rest ih =>
    cases hna : notAfterForRun o.override c now with
    | error e =>
      refine ⟨?_, ?_, ?_⟩ <;> simp [launchWorkers, hna]
    | ok na =>
      refine ⟨?_, ?_, ?_⟩
      · simp [launchWorkers, hna, ih.1]
      · simp [launchWorkers, hna, ih.2.1]
      · intro w hw
        simp [launchWorkers, hna] at hw
        rcases hw with h1 | h2
        · subst h1; rfl
        · exact ih.2.2 w h2

/-- C6 counterexample: with a valid first log and a malformed
NotAfterStart in the second, the first worker has already been launched
when the process aborts with the offending prefix. -/
theorem worker_launched_before_abort :
    (launchWorkers defaultOpts 0 [cNone, cBad]).1.length = 1 ∧
    (launchWorkers defaultOpts 0 [cNone, cBad]).2 =
      some "Failed to determine notAfter for bad: failed to parse NotAfterStart: timestamp has out-of-range nanos" := by
  decide

/-- C6 amended: a malformed shard-bound timestamp aborts the process at
the offending log, reported with its prefix: no worker is launched for the
offending log or any later log, but exactly the workers for the logs that
precede it in the configuration have already been launched. -/
theorem abort_at_offending_log (o : MainOpts) (now : Int) (cfgs : List LogConfig) (e : String) :
    (launchWorkers o now cfgs).2 = some e →
    ∃ pre c post, cfgs = pre ++ c :: post ∧
      (∀ c2 ∈ pre, ∃ t, notAfterForRun o.override c2 now = .ok t) ∧
      (∃ msg, notAfterForRun o.override c now = .error msg ∧
        e = "Failed to determine notAfter for " ++ c.pfx ++ ": " ++ msg) ∧
      (launchWorkers o now cfgs).1.length = pre.length := by
  induction cfgs with
  | nil => intro h; simp [launchWorkers] at h
  | cons c rest ih =>
    intro h
    cases hna : notAfterForRun o.override c now with
    | error msg =>
      refine ⟨[], c, rest, rfl, by simp, ⟨msg, hna, ?_⟩, ?_⟩
      · have h2 := h
        simp [launchWorkers, hna] at h2
        exact h2.symm
      · simp [launchWorkers, hna]
    | ok na =>
      have h2 : (launchWorkers o now rest).2 = some e := by
        simpa [launchWorkers, hna] using h
      obtain ⟨pre, cx, post, hsplit, hpre, hmsg, hlen⟩ := ih h2
      refine ⟨c :: pre, cx, post, by rw [hsplit]; rfl, ?_, hmsg, ?_⟩
      · intro c2 hc2
        rcases List.mem_cons.mp hc2 with rfl | hmem
        · exact ⟨na, hna⟩
        · exact hpre c2 hmem
      · simp [launchWorkers, hna, hlen]

/-- Witness for the amended C6: for the two-log configuration whose second
log is malformed, the theorem locates the split: one preceding log, whose
worker was launched, and the offending log "bad". -/
theorem abort_at_offending_log_witness :
    ∃ pre c post, ([cNone, cBad] : List LogConfig) = pre ++ c :: post ∧
      (∀ c2 ∈ pre, ∃ t, notAfterForRun defaultOpts.override c2 0 = .ok t) ∧
      (∃ msg, notAfterForRun defaultOpts.override c 0 = .error msg ∧
        "Failed to determine notAfter for bad: failed to parse NotAfterStart: timestamp has out-of-range nanos" =
          "Failed to determine notAfter for " ++ c.pfx ++ ": " ++ msg) ∧
      (launchWorkers defaultOpts 0 [cNone, cBad]).1.length = pre.length :=
  abort_at_offending_log defaultOpts 0 [cNone, cBad]
    "Failed to determine notAfter for bad: failed to parse NotAfterStart: timestamp has out-of-range nanos"
    (by decide)
